import Mathlib

/-!
Verification of the LyricFlow core: the music-library scanner's file
classification and metadata inference, the `SearchResult` data entity and its
tolerant dictionary construction, the provider factory, and the best-match
selection algorithm.

The definitions below are a shallow embedding of the repository's Python
code.  `SearchResult.from_dict` (src/providers/base.py) and `get_provider`
(src/providers/__init__.py) are translated directly from the source.  The
scanner module (`MusicFile`, `MusicScanner._is_strm_file`,
`MusicScanner._parse_strm_file`) and the concrete match selector backing
`find_best_match` are not among the available sources (only their tests and
abstract declarations are), so those definitions are modelled from the spec,
as marked in their doc comments.
-/

/-- Lowercasing of a string, character by character; models Python's
`str.lower()` (ASCII case folding, identity on CJK and other non-cased
characters). -/
def lowerStr (s : String) : String := ⟨s.data.map Char.toLower⟩

/-- Position of the last `.` in a list of characters, if any. -/
def lastDotPos : List Char → Option Nat
  | [] => none
  | c :: rest =>
      match lastDotPos rest with
      | some n => some (n + 1)
      | none => if c = '.' then some 0 else none

/-- Split a filename into (stem, extension), following `pathlib`'s rule: the
extension starts at the last dot, provided that dot is neither the first nor
the last character of the name; otherwise the extension is empty. -/
def splitName (name : String) : String × String :=
  let cs := name.data
  match lastDotPos cs with
  | some i =>
      if 0 < i ∧ i < cs.length - 1 then (⟨cs.take i⟩, ⟨cs.drop i⟩)
      else (name, "")
  | none => (name, "")

/-- Filename without its extension (`pathlib.Path.stem`). -/
def stemOf (name : String) : String := (splitName name).1

/-- Extension of a filename including the leading dot (`pathlib.Path.suffix`). -/
def suffixOf (name : String) : String := (splitName name).2

/-- A filesystem path: the names of the ancestor directories (outermost
first) and the final component (the filename). -/
structure FsPath where
  dirs : List String
  name : String
deriving DecidableEq, Repr

/-- Extension of the path's filename. -/
def FsPath.suffix (p : FsPath) : String := suffixOf p.name

/-- Replace the extension of the path's filename (`pathlib.Path.with_suffix`). -/
def FsPath.withSuffix (p : FsPath) (ext : String) : FsPath :=
  FsPath.mk p.dirs (stemOf p.name ++ ext)

/-- Replace the final component of the path (`pathlib.Path.with_name`):
the sibling path with the given filename. -/
def FsPath.withName (p : FsPath) (n : String) : FsPath :=
  FsPath.mk p.dirs n

/-- Modelled from the spec: the subset of the scanner's configuration the
core consumes — the folder-structure policy and the default artist (the
`config` module is not among the available sources). -/
structure Config where
  use_folder_structure : Bool
  default_artist : String
deriving DecidableEq, Repr

/-- Modelled from the spec: the `MusicFile` dataclass produced by the
scanner (the `scanner` module is not among the available sources); `is_strm`
defaults to `false`, so a regular audio file need not set it. -/
structure MusicFile where
  path : FsPath
  artist : String
  title : String
  album : String
  is_strm : Bool := false
deriving DecidableEq, Repr

/-- Derived lyrics sidecar path: the file's own path with its extension
replaced by `.lrc`. -/
def MusicFile.lyrics_path (m : MusicFile) : FsPath := m.path.withSuffix ".lrc"

/-- Derived cover sidecar path: the sibling path named `cover.jpg` in the
same directory. -/
def MusicFile.cover_path (m : MusicFile) : FsPath := m.path.withName "cover.jpg"

/-- Modelled from the spec: `MusicScanner._is_strm_file` (the `scanner`
module is not among the available sources) — true iff the path's extension,
lower-cased, equals the pointer-file extension `.strm`. -/
def is_strm_file (p : FsPath) : Bool := lowerStr p.suffix == ".strm"

/-- Modelled from the spec: the scanner's metadata inference (the `scanner`
module is not among the available sources).  Inputs are the configuration,
the names of the file's ancestor directories below the library root
(outermost first), and the filename; output is `(artist, album, title)`.
The title is the filename without its extension; with folder structure
enabled, two or more ancestors give `artist` = grandparent directory and
`album` = immediate parent directory, exactly one ancestor gives `artist` =
parent and `album` = empty; otherwise the configured default artist is used
and `album` is empty. -/
def inferMetadata (cfg : Config) (relDirs : List String) (name : String) :
    String × String × String :=
  let title := stemOf name
  if cfg.use_folder_structure then
    match relDirs.reverse with
    | [] => (cfg.default_artist, "", title)
    | [parent] => (parent, "", title)
    | parent :: grand :: _ => (grand, parent, title)
  else (cfg.default_artist, "", title)

/-- A single search result from a lyrics API (src/providers/base.py,
`SearchResult`). -/
structure SearchResult where
  id : String
  name : String
  artist : String
  album : String
  platform : String
  lrc_url : String
  pic_url : String
deriving DecidableEq, Repr

/-- Python's `dict.get(key, default)` over a raw response record, modelled
as an association list with the first binding of a key authoritative. -/
def dget (data : List (String × String)) (key dflt : String) : String :=
  match data.find? (fun kv => kv.1 == key) with
  | some kv => kv.2
  | none => dflt

/-- Tolerant construction of a `SearchResult` from a raw dictionary
(src/providers/base.py, `SearchResult.from_dict`): every field defaults to
the empty string when its source key is absent. -/
def SearchResult.from_dict (data : List (String × String)) : SearchResult :=
  SearchResult.mk (dget data "id" "") (dget data "name" "")
    (dget data "artist" "") (dget data "album" "") (dget data "platform" "")
    (dget data "lrc" "") (dget data "pic" "")

/-- The concrete provider backends the factory can select. -/
inductive Provider where
  | tunehub
  | lrcapi
deriving DecidableEq, Repr

/-- Provider factory (src/providers/__init__.py, `get_provider`): lowercase
the configured selector; `"lrcapi"` selects the LrcApi backend, anything
else defaults to TuneHub. -/
def get_provider (api_provider : String) : Provider :=
  let provider_name := lowerStr api_provider
  if provider_name == "lrcapi" then Provider.lrcapi else Provider.tunehub

/-- Modelled from the spec: the case-insensitive string comparison used by
the match selector. -/
def eqIC (a b : String) : Bool := lowerStr a == lowerStr b

/-- Modelled from the spec: the match selector's score of a candidate
against the query's expected artist and title — one point per field that
matches case-insensitively, so an exact match of both fields (score 2)
always outranks any partial match (score at most 1). -/
def matchScore (r : SearchResult) (artist title : String) : Nat :=
  (if eqIC r.artist artist then 1 else 0) + (if eqIC r.name title then 1 else 0)

/-- Modelled from the spec: the minimum similarity threshold — candidates
matching neither field score 0 and are excluded entirely. -/
def scoreThreshold : Nat := 1

/-- Modelled from the spec: the selector's scan over the candidates, keeping
the current best candidate and its score; a later candidate replaces the
best only when its score is strictly greater, so ties keep the earlier
candidate. -/
def bestAux (artist title : String) :
    List SearchResult → Option (SearchResult × Nat) → Option (SearchResult × Nat)
  | [], acc => acc
  | r :: rest, acc =>
      let s := matchScore r artist title
      bestAux artist title rest
        (match acc with
         | none => if scoreThreshold ≤ s then some (r, s) else none
         | some (b, bs) => if bs < s then some (r, s) else some (b, bs))

/-- Modelled from the spec: the match selector backing
`LyricsProviderBase.find_best_match` (src/providers/base.py declares it
abstract; no concrete backend is among the available sources).  Returns the
first candidate attaining the maximal score when that score reaches the
threshold, and no result otherwise. -/
def find_best_match (results : List SearchResult) (artist title : String) :
    Option SearchResult :=
  (bestAux artist title results none).map Prod.fst

/-- Maximal score over a candidate list (0 for the empty list). -/
def maxScoreOf (results : List SearchResult) (artist title : String) : Nat :=
  results.foldr (fun r m => max (matchScore r artist title) m) 0

theorem dget_eq_of_not_mem (data : List (String × String)) (key dflt : String)
    (h : key ∉ data.map Prod.fst) : dget data key dflt = dflt := by
  induction data with
  | nil => rfl
  | cons kv rest ih =>
      simp only [List.map_cons, List.mem_cons, not_or] at h
      have hne : (kv.1 == key) = false := beq_eq_false_iff_ne.mpr fun e => h.1 e.symm
      simp only [dget, List.find?_cons, hne]
      exact ih h.2

/-- C1: with folder-structure inference enabled, the inferred title is the
filename without its extension; a file with at least two ancestor
directories below the root gets `artist` = grandparent directory name and
`album` = immediate parent directory name, and a file with exactly one
ancestor directory gets `artist` = that directory's name and `album` = "". -/
theorem folder_structure_inference (cfg : Config) (name : String)
    (h : cfg.use_folder_structure = true) :
    (∀ relDirs, (inferMetadata cfg relDirs name).2.2 = stemOf name)
    ∧ (∀ ds g p, inferMetadata cfg (ds ++ [g, p]) name = (g, p, stemOf name))
    ∧ (∀ a, inferMetadata cfg [a] name = (a, "", stemOf name)) := by
  refine ⟨fun relDirs => ?_, fun ds g p => ?_, fun a => ?_⟩
  · simp only [inferMetadata, h, if_true]
    split <;> rfl
  · simp [inferMetadata, h, List.reverse_append]
  · simp [inferMetadata, h]

theorem folder_structure_inference_witness :
    inferMetadata (Config.mk true "") ["周杰伦", "叶惠美"] "晴天.strm"
        = ("周杰伦", "叶惠美", "晴天")
    ∧ inferMetadata (Config.mk true "") ["周杰伦"] "晴天.strm" = ("周杰伦", "", "晴天") := by
  have h := folder_structure_inference (Config.mk true "") "晴天.strm" rfl
  exact ⟨(h.2.1 [] "周杰伦" "叶惠美").trans (by decide), (h.2.2 "周杰伦").trans (by decide)⟩

/-- C8: with folder-structure inference disabled, the inferred metadata is
the configured default artist, an empty album, and the filename without its
extension as title. -/
theorem default_artist_inference (cfg : Config) (relDirs : List String) (name : String)
    (h : cfg.use_folder_structure = false) :
    inferMetadata cfg relDirs name = (cfg.default_artist, "", stemOf name) := by
  simp [inferMetadata, h]

theorem default_artist_inference_witness :
    inferMetadata (Config.mk false "未知歌手") [] "晴天.strm" = ("未知歌手", "", "晴天") :=
  (default_artist_inference (Config.mk false "未知歌手") [] "晴天.strm" rfl).trans (by decide)

/-- C5: the provider factory compares the configured selector
case-insensitively; `lrcapi` (in any case) selects the LrcApi backend, and
every other value resolves to the default TuneHub backend rather than
raising. -/
theorem get_provider_selection (s₁ s₂ : String) :
    (lowerStr s₁ = lowerStr s₂ → get_provider s₁ = get_provider s₂)
    ∧ (lowerStr s₁ = "lrcapi" → get_provider s₁ = Provider.lrcapi)
    ∧ (lowerStr s₁ ≠ "lrcapi" → get_provider s₁ = Provider.tunehub) := by
  refine ⟨fun h => ?_, fun h => ?_, fun h => ?_⟩ <;> simp [get_provider, h]

theorem get_provider_selection_witness :
    get_provider "LRCAPI" = get_provider "LrcApi"
    ∧ get_provider "LrcApi" = Provider.lrcapi
    ∧ get_provider "TuneHub" = Provider.tunehub :=
  ⟨(get_provider_selection "LRCAPI" "LrcApi").1 (by decide),
   (get_provider_selection "LrcApi" "").2.1 (by decide),
   (get_provider_selection "TuneHub" "").2.2 (by decide)⟩

/-- C6: `SearchResult.from_dict` is total, and each of the seven string
fields independently defaults to the empty string when its source key is
absent from the raw dictionary. -/
theorem from_dict_defaults (data : List (String × String)) :
    ("id" ∉ data.map Prod.fst → (SearchResult.from_dict data).id = "")
    ∧ ("name" ∉ data.map Prod.fst → (SearchResult.from_dict data).name = "")
    ∧ ("artist" ∉ data.map Prod.fst → (SearchResult.from_dict data).artist = "")
    ∧ ("album" ∉ data.map Prod.fst → (SearchResult.from_dict data).album = "")
    ∧ ("platform" ∉ data.map Prod.fst → (SearchResult.from_dict data).platform = "")
    ∧ ("lrc" ∉ data.map Prod.fst → (SearchResult.from_dict data).lrc_url = "")
    ∧ ("pic" ∉ data.map Prod.fst → (SearchResult.from_dict data).pic_url = "") :=
  ⟨fun h => dget_eq_of_not_mem data "id" "" h,
   fun h => dget_eq_of_not_mem data "name" "" h,
   fun h => dget_eq_of_not_mem data "artist" "" h,
   fun h => dget_eq_of_not_mem data "album" "" h,
   fun h => dget_eq_of_not_mem data "platform" "" h,
   fun h => dget_eq_of_not_mem data "lrc" "" h,
   fun h => dget_eq_of_not_mem data "pic" "" h⟩

theorem from_dict_defaults_witness :
    (SearchResult.from_dict [("name", "晴天")]).id = ""
    ∧ (SearchResult.from_dict [("name", "晴天")]).lrc_url = "" :=
  ⟨(from_dict_defaults [("name", "晴天")]).1 (by decide),
   (from_dict_defaults [("name", "晴天")]).2.2.2.2.2.1 (by decide)⟩

/-- C7: `is_strm_file` holds exactly when the path's extension, lower-cased,
equals `.strm`, and its value is invariant under any change of case of the
extension; as a total function it never fails. -/
theorem is_strm_file_spec (p q : FsPath) :
    (is_strm_file p = true ↔ lowerStr p.suffix = ".strm")
    ∧ (lowerStr p.suffix = lowerStr q.suffix → is_strm_file p = is_strm_file q) := by
  constructor
  · simp [is_strm_file]
  · intro h
    simp [is_strm_file, h]

theorem is_strm_file_spec_witness :
    is_strm_file (FsPath.mk [] "song.STRM") = true
    ∧ is_strm_file (FsPath.mk [] "song.STRM") = is_strm_file (FsPath.mk [] "song.strm") :=
  ⟨(is_strm_file_spec (FsPath.mk [] "song.STRM") (FsPath.mk [] "song.strm")).1.mpr (by decide),
   (is_strm_file_spec (FsPath.mk [] "song.STRM") (FsPath.mk [] "song.strm")).2 (by decide)⟩

/-- C9: a `MusicFile`'s lyrics sidecar path is its own path with the
extension replaced by `.lrc`, its cover sidecar path is the sibling
`cover.jpg` in the same directory, and both are computed identically
whatever the value of `is_strm`. -/
theorem sidecar_paths (m : MusicFile) (b : Bool) :
    m.lyrics_path.dirs = m.path.dirs
    ∧ m.lyrics_path.name = stemOf m.path.name ++ ".lrc"
    ∧ m.cover_path.dirs = m.path.dirs
    ∧ m.cover_path.name = "cover.jpg"
    ∧ (MusicFile.mk m.path m.artist m.title m.album b : MusicFile).lyrics_path = m.lyrics_path
    ∧ (MusicFile.mk m.path m.artist m.title m.album b : MusicFile).cover_path = m.cover_path :=
  ⟨rfl, rfl, rfl, rfl, rfl, rfl⟩

/-- C10: a `MusicFile` constructed without supplying the `is_strm` argument
has `is_strm = false`. -/
theorem is_strm_default (p : FsPath) (a t al : String) :
    ({ path := p, artist := a, title := t, album := al } : MusicFile).is_strm = false := rfl

theorem maxScoreOf_cons (a t : String) (r : SearchResult) (l : List SearchResult) :
    maxScoreOf (r :: l) a t = max (matchScore r a t) (maxScoreOf l a t) := rfl

theorem le_maxScoreOf (a t : String) (l : List SearchResult) (r : SearchResult)
    (h : r ∈ l) : matchScore r a t ≤ maxScoreOf l a t := by
  induction l with
  | nil => cases h
  | cons x l ih =>
      rcases List.mem_cons.mp h with h | h
      · subst h
        simp only [maxScoreOf_cons]
        exact Nat.le_max_left _ _
      · refine Nat.le_trans (ih h) ?_
        simp only [maxScoreOf_cons]
        exact Nat.le_max_right _ _

theorem maxScoreOf_le (a t : String) (l : List SearchResult) (c : Nat)
    (h : ∀ r ∈ l, matchScore r a t ≤ c) : maxScoreOf l a t ≤ c := by
  induction l with
  | nil => exact Nat.zero_le c
  | cons x l ih =>
      simp only [maxScoreOf_cons]
      exact Nat.max_le.mpr
        ⟨h x (List.mem_cons_self x l), ih fun r hr => h r (List.mem_cons_of_mem x hr)⟩

theorem matchScore_le_two (r : SearchResult) (a t : String) : matchScore r a t ≤ 2 := by
  unfold matchScore
  split <;> split <;> omega

theorem matchScore_exact (r : SearchResult) (a t : String)
    (h1 : eqIC r.artist a = true) (h2 : eqIC r.name t = true) : matchScore r a t = 2 := by
  simp [matchScore, h1, h2]

theorem matchScore_eq_two (r : SearchResult) (a t : String)
    (h : matchScore r a t = 2) : eqIC r.artist a = true ∧ eqIC r.name t = true := by
  unfold matchScore at h
  by_cases h1 : eqIC r.artist a = true
  · by_cases h2 : eqIC r.name t = true
    · exact ⟨h1, h2⟩
    · rw [if_pos h1, if_neg h2] at h
      omega
  · rw [if_neg h1] at h
    split at h <;> omega

theorem bestAux_some (a t : String) (l : List SearchResult) :
    ∀ b bs, bestAux a t l (some (b, bs)) =
      if maxScoreOf l a t ≤ bs then some (b, bs)
      else (l.find? (fun r => matchScore r a t == maxScoreOf l a t)).map
        (fun r => (r, matchScore r a t)) := by
  induction l with
  | nil =>
      intro b bs
      simp [bestAux, maxScoreOf]
  | cons r l ih =>
      intro b bs
      by_cases hlt : bs < matchScore r a t
      · have hstep : bestAux a t (r :: l) (some (b, bs))
            = bestAux a t l (some (r, matchScore r a t)) := by
          simp [bestAux, hlt]
        rw [hstep, ih]
        simp only [maxScoreOf_cons]
        by_cases hM : maxScoreOf l a t ≤ matchScore r a t
        · simp only [Nat.max_eq_left hM]
          rw [if_pos hM, if_neg (by omega)]
          rw [List.find?_cons_of_pos _ (by simp)]
          rfl
        · have hMlt : matchScore r a t < maxScoreOf l a t := by omega
          simp only [Nat.max_eq_right (Nat.le_of_lt hMlt)]
          rw [if_neg hM, if_neg (by omega)]
          rw [List.find?_cons_of_neg _ (by simp; omega)]
      · have hle : matchScore r a t ≤ bs := by omega
        have hstep : bestAux a t (r :: l) (some (b, bs))
            = bestAux a t l (some (b, bs)) := by
          simp [bestAux, hlt]
        rw [hstep, ih]
        simp only [maxScoreOf_cons]
        by_cases hMb : maxScoreOf l a t ≤ bs
        · rw [if_pos hMb, if_pos (Nat.max_le.mpr ⟨hle, hMb⟩)]
        · have hbM : bs < maxScoreOf l a t := by omega
          simp only [Nat.max_eq_right (by omega : matchScore r a t ≤ maxScoreOf l a t)]
          rw [if_neg hMb, if_neg hMb]
          rw [List.find?_cons_of_neg _ (by simp; omega)]

theorem bestAux_none (a t : String) (l : List SearchResult) :
    bestAux a t l none =
      if scoreThreshold ≤ maxScoreOf l a t
      then (l.find? (fun r => matchScore r a t == maxScoreOf l a t)).map
        (fun r => (r, matchScore r a t))
      else none := by
  induction l with
  | nil => simp [bestAux, maxScoreOf, scoreThreshold]
  | cons r l ih =>
      by_cases hT : scoreThreshold ≤ matchScore r a t
      · have hstep : bestAux a t (r :: l) none
            = bestAux a t l (some (r, matchScore r a t)) := by
          simp [bestAux, hT]
        rw [hstep, bestAux_some]
        simp only [maxScoreOf_cons]
        by_cases hM : maxScoreOf l a t ≤ matchScore r a t
        · simp only [Nat.max_eq_left hM]
          rw [if_pos hM, if_pos hT]
          rw [List.find?_cons_of_pos _ (by simp)]
          rfl
        · have hMlt : matchScore r a t < maxScoreOf l a t := by omega
          simp only [Nat.max_eq_right (Nat.le_of_lt hMlt)]
          rw [if_neg hM, if_pos (by omega)]
          rw [List.find?_cons_of_neg _ (by simp; omega)]
      · have hstep : bestAux a t (r :: l) none = bestAux a t l none := by
          simp [bestAux, hT]
        rw [hstep, ih]
        simp only [maxScoreOf_cons]
        by_cases hM : scoreThreshold ≤ maxScoreOf l a t
        · simp only [Nat.max_eq_right (by omega : matchScore r a t ≤ maxScoreOf l a t)]
          rw [if_pos hM, if_pos hM]
          rw [List.find?_cons_of_neg _ (by simp; omega)]
        · have hlt : max (matchScore r a t) (maxScoreOf l a t) < scoreThreshold :=
            Nat.max_lt.mpr ⟨by omega, by omega⟩
          rw [if_neg hM, if_neg (Nat.not_le.mpr hlt)]

theorem find_best_match_eq (l : List SearchResult) (a t : String) :
    find_best_match l a t =
      if scoreThreshold ≤ maxScoreOf l a t
      then l.find? (fun r => matchScore r a t == maxScoreOf l a t)
      else none := by
  unfold find_best_match
  rw [bestAux_none]
  by_cases hT : scoreThreshold ≤ maxScoreOf l a t
  · rw [if_pos hT, if_pos hT]
    rcases h : l.find? (fun r => matchScore r a t == maxScoreOf l a t) with _ | x <;> simp
  · rw [if_neg hT, if_neg hT]
    rfl

/-- C2: when some candidate matches the query's artist and title exactly
under case-insensitive comparison, `find_best_match` returns an
exact-matching candidate, never a partially matching one, whatever the
order of the input list. -/
theorem find_best_match_exact_preferred (l : List SearchResult) (a t : String)
    (r₀ : SearchResult) (hmem : r₀ ∈ l)
    (h1 : eqIC r₀.artist a = true) (h2 : eqIC r₀.name t = true) :
    ∃ r, find_best_match l a t = some r
      ∧ eqIC r.artist a = true ∧ eqIC r.name t = true := by
  have hs0 : matchScore r₀ a t = 2 := matchScore_exact r₀ a t h1 h2
  have hMge : 2 ≤ maxScoreOf l a t := hs0 ▸ le_maxScoreOf a t l r₀ hmem
  have hMle : maxScoreOf l a t ≤ 2 :=
    maxScoreOf_le a t l 2 fun r _ => matchScore_le_two r a t
  have hM : maxScoreOf l a t = 2 := Nat.le_antisymm hMle hMge
  have hT : scoreThreshold ≤ maxScoreOf l a t := by
    rw [hM]
    decide
  rw [find_best_match_eq, if_pos hT]
  have hsome : (l.find? fun r => matchScore r a t == maxScoreOf l a t).isSome :=
    List.find?_isSome.mpr ⟨r₀, hmem, by simp [hs0, hM]⟩
  rcases hfind : l.find? (fun r => matchScore r a t == maxScoreOf l a t) with _ | x
  · rw [hfind] at hsome
    simp at hsome
  · have hpx : (matchScore x a t == maxScoreOf l a t) = true := by
      simpa using List.find?_some hfind
    have hx2 : matchScore x a t = 2 := by
      have hb := eq_of_beq hpx
      omega
    have hboth := matchScore_eq_two x a t hx2
    exact ⟨x, rfl, hboth.1, hboth.2⟩

theorem find_best_match_exact_preferred_witness :
    ∃ r, find_best_match
        [SearchResult.mk "1" "t" "x" "" "" "" "", SearchResult.mk "2" "T" "A" "" "" "" ""]
        "a" "t" = some r
      ∧ eqIC r.artist "a" = true ∧ eqIC r.name "t" = true :=
  find_best_match_exact_preferred _ "a" "t" (SearchResult.mk "2" "T" "A" "" "" "" "")
    (by decide) (by decide) (by decide)

/-- C3: when several candidates attain the same maximal score, the first
one in the input sequence wins: for any list split as `l₁ ++ r :: l₂` where
`r` attains the maximal score, reaches the threshold, and no earlier
candidate attains that score, the selector deterministically returns `r`. -/
theorem find_best_match_first_on_tie (a t : String) (l₁ l₂ : List SearchResult)
    (r : SearchResult)
    (hmax : matchScore r a t = maxScoreOf (l₁ ++ r :: l₂) a t)
    (hT : scoreThreshold ≤ matchScore r a t)
    (hfirst : ∀ x ∈ l₁, matchScore x a t ≠ matchScore r a t) :
    find_best_match (l₁ ++ r :: l₂) a t = some r := by
  rw [find_best_match_eq, if_pos (hmax ▸ hT)]
  rw [List.find?_append]
  have h1 : l₁.find? (fun x => matchScore x a t == maxScoreOf (l₁ ++ r :: l₂) a t)
      = none := by
    rw [List.find?_eq_none]
    intro x hx
    simp only [beq_iff_eq]
    rw [← hmax]
    exact hfirst x hx
  rw [h1]
  rw [List.find?_cons_of_pos _ (by simp only [beq_iff_eq]; exact hmax)]
  rfl

theorem find_best_match_first_on_tie_witness :
    find_best_match
      [SearchResult.mk "0" "u" "v" "" "" "" "",
       SearchResult.mk "1" "t" "x" "" "" "" "",
       SearchResult.mk "2" "t" "y" "" "" "" ""] "a" "t"
      = some (SearchResult.mk "1" "t" "x" "" "" "" "") :=
  find_best_match_first_on_tie "a" "t" [SearchResult.mk "0" "u" "v" "" "" "" ""]
    [SearchResult.mk "2" "t" "y" "" "" "" ""] (SearchResult.mk "1" "t" "x" "" "" "" "")
    (by decide) (by decide) (by decide)

/-- C4: the selector returns the absence marker whenever the candidate list
is empty or every candidate scores below the minimum similarity threshold,
and any returned candidate reaches the threshold — a below-threshold
candidate is never returned as a weak guess. -/
theorem find_best_match_absence (l : List SearchResult) (a t : String) :
    ((l = [] ∨ ∀ r ∈ l, matchScore r a t < scoreThreshold)
        → find_best_match l a t = none)
    ∧ (∀ r, find_best_match l a t = some r → scoreThreshold ≤ matchScore r a t) := by
  have h1 : scoreThreshold = 1 := rfl
  constructor
  · rintro (rfl | hall)
    · rfl
    · rw [find_best_match_eq]
      have hM : maxScoreOf l a t ≤ scoreThreshold - 1 :=
        maxScoreOf_le a t l (scoreThreshold - 1) fun r hr => by
          have := hall r hr
          omega
      rw [if_neg (by omega)]
  · intro r hr
    rw [find_best_match_eq] at hr
    by_cases hT : scoreThreshold ≤ maxScoreOf l a t
    · rw [if_pos hT] at hr
      have hpr : (matchScore r a t == maxScoreOf l a t) = true := by
        simpa using List.find?_some hr
      have hb := eq_of_beq hpr
      omega
    · rw [if_neg hT] at hr
      exact Option.noConfusion hr

theorem find_best_match_absence_witness :
    find_best_match [] "a" "t" = none
    ∧ find_best_match [SearchResult.mk "0" "u" "v" "" "" "" ""] "a" "t" = none :=
  ⟨(find_best_match_absence [] "a" "t").1 (Or.inl rfl),
   (find_best_match_absence [SearchResult.mk "0" "u" "v" "" "" "" ""] "a" "t").1
     (Or.inr (by decide))⟩
